import Mathlib

/-!
Shallow embedding of the TennoReporter monitor (`tenno_reporter.py`):
the persistent deduplication ledger (`state` dict plus `purge_old`), the
three category normalizers (`fetch_traders`, `fetch_invasions`,
`fetch_fissures`), the rarity test (`_reward_is_rare`), the webhook
notifier retry behaviour (`post_discord`), and the per-cycle notification
pass (`do_discord_notifications`), together with theorems checking the
specification's claims about them.

Numbers: Python ints become `Int`; Python floats appearing in the logic
(second-granularity timestamps, the progress ratio, the `retry_after`
delay) become `Int` or `ℚ`, with the float divisions written as exact
rational divisions.  ISO-8601 timestamp parsing (`_parse_iso_ms`) is
abstracted to its integer result: raw records carry the already-parsed
millisecond value, with `0` standing for a missing or unparseable field,
exactly the value `_parse_iso_ms` returns in those cases.
-/

namespace TennoReporter

/-! ### Substring test: model of Python's `kw in s` -/

/-- Does `kw` match the beginning of `s`?  (Helper for the substring test.) -/
def leadMatch : List Char → List Char → Bool
  | [], _ => true
  | _ :: _, [] => false
  | a :: as, b :: bs => a == b && leadMatch as bs

/-- Model of Python's substring containment `kw in s` on exploded strings. -/
def hasSub : List Char → List Char → Bool
  | kw, [] => kw.isEmpty
  | kw, c :: rest => leadMatch kw (c :: rest) || hasSub kw rest

/-- Python's `kw in s` for strings. -/
def strIn (kw s : String) : Bool := hasSub kw.toList s.toList

theorem leadMatch_iff (kw : List Char) : ∀ s, leadMatch kw s = true ↔ ∃ t, s = kw ++ t := by
  induction kw with
  | nil =>
    intro s
    simp [leadMatch]
  | cons a as ih =>
    intro s
    cases s with
    | nil =>
      simp [leadMatch]
    | cons b bs =>
      rw [leadMatch, Bool.and_eq_true, beq_iff_eq, ih bs]
      constructor
      · rintro ⟨rfl, t, rfl⟩
        exact ⟨t, rfl⟩
      · rintro ⟨t, h⟩
        rw [List.cons_append] at h
        injection h with h1 h2
        exact ⟨h1.symm, t, h2⟩

theorem hasSub_iff (kw : List Char) : ∀ s, hasSub kw s = true ↔ ∃ p q, s = p ++ kw ++ q := by
  intro s
  induction s with
  | nil =>
    rw [hasSub, List.isEmpty_iff]
    constructor
    · rintro rfl
      exact ⟨[], [], rfl⟩
    · rintro ⟨p, q, h⟩
      rcases List.append_eq_nil.mp h.symm with ⟨h1, h2⟩
      exact (List.append_eq_nil.mp h1).2
  | cons c rest ih =>
    rw [hasSub, Bool.or_eq_true, ih, leadMatch_iff]
    constructor
    · rintro (⟨t, h⟩ | ⟨p, q, h⟩)
      · exact ⟨[], t, by simpa using h⟩
      · exact ⟨c :: p, q, by simp [h]⟩
    · rintro ⟨p, q, h⟩
      cases p with
      | nil =>
        exact Or.inl ⟨q, by simpa using h⟩
      | cons x xs =>
        rw [List.cons_append, List.cons_append] at h
        injection h with h1 h2
        exact Or.inr ⟨xs, q, h2⟩

theorem strIn_iff (kw s : String) :
    strIn kw s = true ↔ ∃ p q, s.toList = p ++ kw.toList ++ q :=
  hasSub_iff kw.toList s.toList

/-! ### Small string helpers (models of the Python string operations used) -/

/-- ASCII whitespace, the characters Python's `str.strip()` removes in
the inputs this program sees. -/
def isSpaceChar (c : Char) : Bool := c == ' ' || c == '\t' || c == '\n' || c == '\r'

/-- Model of Python's `s.strip()`. -/
def pyStrip (s : String) : String :=
  ⟨((s.toList.dropWhile isSpaceChar).reverse.dropWhile isSpaceChar).reverse⟩

/-- Model of Python's `s.split('/')[-1]`: the part after the last slash. -/
def afterLastSlash (s : String) : String :=
  ⟨(s.toList.reverse.takeWhile (fun c => !(c == '/'))).reverse⟩

/-- Model of Python's `sep.join(xs)`. -/
def joinSep (sep : String) : List String → String
  | [] => ""
  | [x] => x
  | x :: xs => x ++ sep ++ joinSep sep xs

/-- Model of Python's `s.lower()` (ASCII range, all this program compares). -/
def lowerStr (s : String) : String := ⟨s.toList.map Char.toLower⟩

/-- Zero-padded two-digit rendering, Python's `f"{m:02d}"` for the
small nonnegative values this program formats. -/
def pad2 (n : Int) : String :=
  if 0 ≤ n ∧ n < 10 then "0" ++ toString n else toString n

/-! ### Time formatting helpers (`remaining`, `to_dt`) -/

/-- `remaining(ms)` from the source: human-readable countdown from the
current millisecond timestamp `cur` to `ms`. -/
def remaining (cur ms : Int) : String :=
  let diff : ℚ := ((ms - cur : Int) : ℚ) / 1000
  if diff ≤ 0 then "已过期"
  else
    let h : Int := ⌊diff / 3600⌋
    let m : Int := ⌊(diff - 3600 * (h : ℚ)) / 60⌋
    if h ≠ 0 then toString h ++ "h " ++ pad2 m ++ "m" else toString m ++ "m"

/-- `to_dt(ms)` from the source: UTC `"%m-%d %H:%M UTC"` rendering of a
millisecond timestamp (civil-from-days calendar computation). -/
def to_dt (ms : Int) : String :=
  let s := Int.fdiv ms 1000
  let days := Int.fdiv s 86400
  let secOfDay := s - 86400 * days
  let hh := Int.fdiv secOfDay 3600
  let mm := Int.fdiv (secOfDay - 3600 * hh) 60
  let z := days + 719468
  let era := Int.fdiv z 146097
  let doe := z - era * 146097
  let yoe := Int.fdiv (doe - Int.fdiv doe 1460 + Int.fdiv doe 36524 - Int.fdiv doe 146096) 365
  let doy := doe - (365 * yoe + Int.fdiv yoe 4 - Int.fdiv yoe 100)
  let mp := Int.fdiv (5 * doy + 2) 153
  let d := doy - Int.fdiv (153 * mp + 2) 5 + 1
  let m := mp + (if mp < 10 then 3 else -9)
  pad2 m ++ "-" ++ pad2 d ++ " " ++ pad2 hh ++ ":" ++ pad2 mm ++ " UTC"

/-! ### The deduplication ledger (the persisted `state` dict) -/

/-- The persisted `state` mapping: key → `{"ts": seconds}`.  Modelled as an
association list where the first binding of a key is its current value. -/
abbrev Ledger := List (String × Int)

/-- Dict lookup: the stored timestamp for `k`, if present. -/
def getTs : Ledger → String → Option Int
  | [], _ => none
  | (k', t) :: rest, k => if k' = k then some t else getTs rest k

/-- Python's `k in state`. -/
def hasKey (s : Ledger) (k : String) : Bool := (getTs s k).isSome

/-- Python's `state[k] = {"ts": t}`: overwrite or create the binding. -/
def putTs (s : Ledger) (k : String) (t : Int) : Ledger :=
  (k, t) :: s.filter (fun p => !(p.1 == k))

/-- `purge_old(state)` from the source: drop every entry whose `ts` is older
than `3 * 86400` seconds before the current time `now`. -/
def purge_old (now : Int) (s : Ledger) : Ledger :=
  s.filter (fun p => !(decide (p.2 < now - 3 * 86400)))

/-- A ledger is well formed when no key is bound twice (always true of a
Python dict). -/
def LedgerWF (s : Ledger) : Prop := (s.map Prod.fst).Nodup

theorem getTs_filter_ne (s : Ledger) (a k : String) (h : k ≠ a) :
    getTs (s.filter (fun p => !(p.1 == a))) k = getTs s k := by
  induction s with
  | nil => rfl
  | cons hd tl ih =>
    obtain ⟨k', t⟩ := hd
    rw [List.filter_cons]
    by_cases hk : k' = a
    · subst hk
      rw [if_neg (by simp)]
      simp only [getTs]
      rw [if_neg (fun hh => h hh.symm)]
      exact ih
    · rw [if_pos (by simp [hk])]
      simp only [getTs]
      by_cases hkk : k' = k
      · simp [hkk]
      · rw [if_neg hkk, if_neg hkk]
        exact ih

theorem getTs_putTs (s : Ledger) (a : String) (t : Int) (k : String) :
    getTs (putTs s a t) k = if k = a then some t else getTs s k := by
  rw [putTs, getTs]
  by_cases h : k = a
  · simp [h]
  · rw [if_neg (fun hh => h hh.symm), if_neg h]
    exact getTs_filter_ne s a k h

theorem hasKey_putTs (s : Ledger) (a : String) (t : Int) (k : String) :
    hasKey (putTs s a t) k = (k == a || hasKey s k) := by
  rw [hasKey, getTs_putTs]
  by_cases h : k = a <;> simp [h, hasKey]

theorem hasKey_putTs_self (s : Ledger) (a : String) (t : Int) :
    hasKey (putTs s a t) a = true := by
  rw [hasKey_putTs]
  simp

theorem hasKey_putTs_mono (s : Ledger) (a : String) (t : Int) (k : String)
    (h : hasKey s k = true) : hasKey (putTs s a t) k = true := by
  rw [hasKey_putTs, h, Bool.or_true]

theorem getTs_filter_some (s : Ledger) (p : String × Int → Bool) (k : String) (v : Int)
    (h : getTs s k = some v) (hp : p (k, v) = true) :
    getTs (s.filter p) k = some v := by
  induction s with
  | nil => exact absurd h (by simp [getTs])
  | cons hd tl ih =>
    obtain ⟨k', t⟩ := hd
    rw [getTs] at h
    by_cases hk : k' = k
    · subst hk
      rw [if_pos rfl] at h
      injection h with h
      subst h
      rw [List.filter_cons, if_pos hp, getTs, if_pos rfl]
    · rw [if_neg hk] at h
      rw [List.filter_cons]
      by_cases hkeep : p (k', t) = true
      · rw [if_pos hkeep, getTs, if_neg hk]
        exact ih h
      · rw [if_neg hkeep]
        exact ih h

theorem getTs_filter_none (s : Ledger) (p : String × Int → Bool) (k : String)
    (h : getTs s k = none) : getTs (s.filter p) k = none := by
  induction s with
  | nil => rfl
  | cons hd tl ih =>
    obtain ⟨k', t⟩ := hd
    rw [getTs] at h
    by_cases hk : k' = k
    · rw [if_pos hk] at h
      exact absurd h (by simp)
    · rw [if_neg hk] at h
      rw [List.filter_cons]
      by_cases hkeep : p (k', t) = true
      · rw [if_pos hkeep, getTs, if_neg hk]
        exact ih h
      · rw [if_neg hkeep]
        exact ih h

theorem hasKey_filter_false (s : Ledger) (p : String × Int → Bool) (k : String)
    (h : hasKey s k = false) : hasKey (s.filter p) k = false := by
  rw [hasKey] at h ⊢
  cases hg : getTs s k with
  | some v => rw [hg] at h; exact absurd h (by simp)
  | none => rw [getTs_filter_none s p k hg]; rfl

theorem hasKey_purge_false (now : Int) (s : Ledger) (k : String)
    (h : hasKey s k = false) : hasKey (purge_old now s) k = false :=
  hasKey_filter_false s _ k h

/-! ### Rarity test (`RARE_REWARD_TYPES`, `_reward_is_rare`, `_fmt_reward_parsed`) -/

/-- `RARE_REWARD_TYPES` from the source. -/
def RARE_REWARD_TYPES : List String :=
  ["OrokinCatalyst", "OrokinReactor", "Forma",
   "AuraForma", "Riven", "AladCoordinate", "SentinelWeaponBP"]

/-- An entry of a reward's `items`/`countedItems` list.  `Option` fields model
JSON keys that may be absent. -/
structure RawItem where
  uniqueName : Option String
  type : Option String
  count : Option Int
deriving DecidableEq

/-- A reward object (a JSON dict).  A non-dict reward value is modelled as
`Option.none` at the use sites. -/
structure RawReward where
  asString : Option String
  items : Option (List RawItem)
  countedItems : Option (List RawItem)
deriving DecidableEq

/-- The empty dict `{}`, the default for a missing `reward` field. -/
def emptyReward : RawReward := ⟨Option.none, Option.none, Option.none⟩

/-- The effective item list of a reward:
`items = reward_obj.get("items", []); if not items: items = reward_obj.get("countedItems", [])`. -/
def rewardItems (r : RawReward) : List RawItem :=
  let items := r.items.getD []
  if items.isEmpty then r.countedItems.getD [] else items

/-- The per-item name the rarity test inspects:
`it.get("uniqueName", "") or it.get("type", "")`. -/
def itemName (it : RawItem) : String :=
  let u := it.uniqueName.getD ""
  if u ≠ "" then u else it.type.getD ""

/-- `_reward_is_rare(reward_obj)` from the source (argument `Option.none`
models a non-dict reward value). -/
def _reward_is_rare (reward_obj : Option RawReward) : Bool :=
  match reward_obj with
  | Option.none => false
  | some r =>
    (rewardItems r).any fun it =>
      RARE_REWARD_TYPES.any fun kw => strIn kw (itemName it)

/-- `_fmt_reward_parsed(reward_obj)` from the source. -/
def _fmt_reward_parsed (reward_obj : Option RawReward) : String :=
  match reward_obj with
  | Option.none => "无"
  | some r =>
    let s := pyStrip (r.asString.getD "")
    if s ≠ "" then s
    else
      let items := match r.items with
        | some xs => xs
        | Option.none => r.countedItems.getD []
      if items.isEmpty then "无"
      else
        joinSep "  " (items.map fun it =>
          afterLastSlash (it.type.getD (it.uniqueName.getD "?")) ++
            " x" ++ toString (it.count.getD 1))

/-! ### Normalized record types (the dicts the fetchers build) -/

/-- A normalized void-trader record. -/
structure Trader where
  active : Bool
  name : String
  node : String
  remain : String
  arrive_remain : String
  arrive_str : String
  expiry_str : String
  oid : String
  act_ms : Int
  exp_ms : Int
deriving DecidableEq

/-- A normalized rare-invasion record. -/
structure Invasion where
  node : String
  atk : String
  def_ : String
  atk_r : String
  def_r : String
  progress : ℚ
  oid : String
deriving DecidableEq

/-- A normalized steel-path fissure record. -/
structure Fissure where
  node_label : String
  tier : String
  mtype : String
  remain : String
  expiry : String
  oid : String
deriving DecidableEq

/-- A weather (cycle) record produced by `fetch_weather`. -/
structure Weather where
  planet : String
  state : String
  next_state : String
  remain : String
  expiry : String
deriving DecidableEq

/-! ### Normalizers (`fetch_traders`, `fetch_invasions`, `fetch_fissures`) -/

/-- Raw upstream void-trader record (`/pc/voidTraders` element).
Timestamps carry the result of `_parse_iso_ms` (0 = missing/unparseable). -/
structure RawTrader where
  id : String
  character : Option String
  location : Option String
  active : Bool
  activation_ms : Int
  expiry_ms : Int
  startString : Option String
  endString : Option String
deriving DecidableEq

/-- The document `_get("voidTraders")` yields: `TradersDoc.fetchFail` is a
failed fetch (Python `None`); a list may contain falsy elements (modelled
`Option.none`); a single dict is wrapped; anything else is discarded. -/
inductive TradersDoc
  | fetchFail
  | list (xs : List (Option RawTrader))
  | dict (t : RawTrader)
  | other
deriving DecidableEq

/-- `fetch_traders` from the source (`cur = now_ms()`). -/
def fetch_traders (cur : Int) (doc : TradersDoc) : List Trader :=
  let data : List (Option RawTrader) :=
    match doc with
    | TradersDoc.list xs => xs
    | TradersDoc.dict t => [some t]
    | _ => []
  data.filterMap fun ot =>
    match ot with
    | Option.none => Option.none
    | some t =>
      let exp_ms := t.expiry_ms
      let act_ms := t.activation_ms
      if exp_ms ≠ 0 ∧ cur > exp_ms then Option.none
      else some
        { active := t.active
          name := t.character.getD "Baro Ki'Teer"
          node := t.location.getD "未知"
          remain := let e := t.endString.getD ""
            if e ≠ "" then e else remaining cur exp_ms
          arrive_remain := let st := t.startString.getD ""
            if st ≠ "" then st else remaining cur act_ms
          arrive_str := if act_ms ≠ 0 then to_dt act_ms else "—"
          expiry_str := if exp_ms ≠ 0 then to_dt exp_ms else "—"
          oid := t.id
          act_ms := act_ms
          exp_ms := exp_ms }

/-- `FACTION_NAME.get(f, f)` from the source. -/
def FACTION_NAME (f : String) : String :=
  if f = "FC_CORPUS" then "星团"
  else if f = "FC_GRINEER" then "基尼尔"
  else if f = "FC_INFESTATION" then "感染体"
  else f

/-- Raw upstream invasion record (`/pc/invasions` element).  The reward
fields are `Option.none` when the JSON value is not a dict; a missing
`reward` key yields `some emptyReward`. -/
structure RawInvasion where
  id : String
  node : Option String
  attackingFaction : String
  defendingFaction : String
  attacker_reward : Option RawReward
  defender_reward : Option RawReward
  completed : Bool
  count : Int
  goal : Int
deriving DecidableEq

/-- The document `_get("invasions")` yields. -/
inductive InvasionsDoc
  | fetchFail
  | list (xs : List RawInvasion)
  | other
deriving DecidableEq

/-- `fetch_invasions` from the source. -/
def fetch_invasions (doc : InvasionsDoc) : List Invasion :=
  match doc with
  | InvasionsDoc.list xs =>
    xs.filterMap fun inv =>
      if inv.completed then Option.none
      else
        let atk_reward := inv.attacker_reward
        let def_reward := inv.defender_reward
        if !(_reward_is_rare atk_reward) && !(_reward_is_rare def_reward) then Option.none
        else
          let count : Int := |inv.count|
          let goal : Int := max inv.goal 1
          some
            { node := inv.node.getD "未知"
              atk := FACTION_NAME inv.attackingFaction
              def_ := FACTION_NAME inv.defendingFaction
              atk_r := _fmt_reward_parsed atk_reward
              def_r := _fmt_reward_parsed def_reward
              progress := (count : ℚ) / (goal : ℚ) * 100
              oid := inv.id }
  | _ => []

/-- `WATCHED_NODES` from the source (insertion order preserved). -/
def WATCHED_NODES : List (String × String) :=
  [("mot", "Mot (虚空)"), ("ani", "Ani (虚空)"), ("olympus", "Olympus (火星)"),
   ("stephano", "Stephano (天王星)"), ("kappa", "Kappa (冥神星)")]

/-- Raw upstream fissure record (`/pc/fissures` element). -/
structure RawFissure where
  id : String
  node : String
  isHard : Bool
  active : Bool
  tier : Option String
  tierNum : Option String
  missionType : String
  eta : Option String
  expiry_ms : Int
deriving DecidableEq

/-- The document `_get("fissures")` yields. -/
inductive FissuresDoc
  | fetchFail
  | list (xs : List RawFissure)
  | other
deriving DecidableEq

/-- `fetch_fissures` from the source. -/
def fetch_fissures (cur : Int) (doc : FissuresDoc) : List Fissure :=
  match doc with
  | FissuresDoc.list xs =>
    xs.filterMap fun m =>
      if !m.isHard then Option.none
      else if !m.active then Option.none
      else
        let node_lower := lowerStr m.node
        match WATCHED_NODES.find? (fun p => strIn p.1 node_lower) with
        | Option.none => Option.none
        | some p =>
          if m.expiry_ms ≠ (0 : Int) ∧ cur > m.expiry_ms then Option.none
          else some
            { node_label := p.2
              tier := m.tier.getD (m.tierNum.getD "")
              mtype := m.missionType
              remain := let e := m.eta.getD ""
                if e ≠ "" then e else remaining cur m.expiry_ms
              expiry := if m.expiry_ms ≠ (0 : Int) then to_dt m.expiry_ms else "—"
              oid := m.id }
  | _ => []

/-! ### Notifier (`post_discord`) retry behaviour

`post_discord` is modelled against the sequence of responses the webhook
returns to successive POSTs.  Each call consumes the head response; on a
429 the source reads `retry_after` from the body (default 5), sleeps that
long, and calls itself again. -/

/-- One webhook response. -/
inductive DiscordResponse
  | success
  | rateLimited (retry_after : Option ℚ)
  | otherStatus (code : Nat)
  | transportError
deriving DecidableEq

/-- `r.json().get("retry_after", 5)` from the source. -/
def retryDelay (ra : Option ℚ) : ℚ := ra.getD 5

/-- `post_discord` from the source, abstracted to its observable attempt
behaviour: given the responses the webhook will return, the number of POST
attempts made and the list of rate-limit sleeps performed, in order. -/
def post_discord_run : List DiscordResponse → Nat × List ℚ
  | [] => (0, [])
  | DiscordResponse.rateLimited ra :: rest =>
    let r := post_discord_run rest
    (r.1 + 1, retryDelay ra :: r.2)
  | _ :: _ => (1, [])

/-! ### The per-cycle notification pass (`do_discord_notifications`) -/

/-- One delivered Discord embed, identified by the record it was built from. -/
inductive Notification
  | traderPre (t : Trader)
  | traderArrive (t : Trader)
  | invasion (inv : Invasion)
  | fissure (fs : Fissure)
  | weather (w : Weather)
deriving DecidableEq

/-- Ledger key of a trader pre-announcement: `f"vt_pre_{oid}"`. -/
def vtPreKey (oid : String) : String := "vt_pre_" ++ oid

/-- Ledger key of a trader arrival: `f"vt_arrive_{oid}"`. -/
def vtArriveKey (oid : String) : String := "vt_arrive_" ++ oid

/-- Ledger key of a weather record: `f"weather_{planet}_{state}_{expiry}"`. -/
def weatherKey (w : Weather) : String :=
  "weather_" ++ w.planet ++ "_" ++ w.state ++ "_" ++ w.expiry

/-- The 3-days-ahead window test `0 < (act - cur) / 1000 <= 259200`
(millisecond timestamps, float division written as exact division in `ℚ`). -/
def preWindow (cur act : Int) : Bool :=
  decide ((0 : ℚ) < ((act - cur : Int) : ℚ) / 1000) &&
    decide (((act - cur : Int) : ℚ) / 1000 ≤ 259200)

/-- Accumulated output of the pass: notifications so far, ledger so far. -/
abbrev Acc := List Notification × Ledger

/-- Pre-announcement block of the trader loop. -/
def traderPrePart (cur now : Int) (t : Trader) (acc : Acc) : Acc :=
  if preWindow cur t.act_ms && !(hasKey acc.2 (vtPreKey t.oid)) then
    (acc.1 ++ [Notification.traderPre t], putTs acc.2 (vtPreKey t.oid) now)
  else acc

/-- Arrival block of the trader loop. -/
def traderArrPart (cur now : Int) (t : Trader) (acc : Acc) : Acc :=
  if decide (cur ≥ t.act_ms) && !(hasKey acc.2 (vtArriveKey t.oid)) then
    (acc.1 ++ [Notification.traderArrive t], putTs acc.2 (vtArriveKey t.oid) now)
  else acc

/-- One iteration of the `for t in traders` loop. -/
def traderStep (cur now : Int) (acc : Acc) (t : Trader) : Acc :=
  traderArrPart cur now t (traderPrePart cur now t acc)

/-- One iteration of the `for inv in invasions` loop:
`if oid and oid not in state`. -/
def invasionStep (now : Int) (acc : Acc) (inv : Invasion) : Acc :=
  if !(inv.oid == "") && !(hasKey acc.2 inv.oid) then
    (acc.1 ++ [Notification.invasion inv], putTs acc.2 inv.oid now)
  else acc

/-- One iteration of the fissure posting loop (runs for every fissure once
the batch fires; only non-empty ids are recorded). -/
def fissurePost (now : Int) (acc : Acc) (fs : Fissure) : Acc :=
  let ns := acc.1 ++ [Notification.fissure fs]
  if !(fs.oid == "") then (ns, putTs acc.2 fs.oid now) else (ns, acc.2)

/-- The fissure block: compute `new_fissures` against the current ledger;
if any, post the whole current set and record every non-empty id. -/
def fissuresStep (now : Int) (fissures : List Fissure) (acc : Acc) : Acc :=
  let new_fissures :=
    fissures.filter fun fs => !(fs.oid == "") && !(hasKey acc.2 fs.oid)
  if new_fissures.isEmpty then acc
  else fissures.foldl (fissurePost now) acc

/-- One iteration of the `for w in earth_weather` loop. -/
def weatherStep (now : Int) (acc : Acc) (w : Weather) : Acc :=
  if hasKey acc.2 (weatherKey w) then acc
  else (acc.1 ++ [Notification.weather w], putTs acc.2 (weatherKey w) now)

/-- The body of `do_discord_notifications` as a transformer of an arbitrary
accumulator: trader loop, invasion loop, fissure block, earth-weather loop,
in source order. -/
def notifyStage (cur now : Int) (traders : List Trader)
    (invasions : List Invasion) (fissures : List Fissure)
    (weather : List Weather) (acc : Acc) : Acc :=
  let a := traders.foldl (traderStep cur now) acc
  let b := invasions.foldl (invasionStep now) a
  let c := fissuresStep now fissures b
  let earth_weather := weather.filter fun w => w.planet == "地球"
  earth_weather.foldl (weatherStep now) c

/-- `do_discord_notifications` from the source.  `cur = now_ms()` (ms),
`now = time.time()` (s); `weather` is the list `fetch_weather()` returned
(empty when that fetch raised).  Returns the notifications delivered, in
order, and the updated ledger. -/
def do_discord_notifications (cur now : Int) (traders : List Trader)
    (invasions : List Invasion) (fissures : List Fissure)
    (weather : List Weather) (state : Ledger) : Acc :=
  notifyStage cur now traders invasions fissures weather ([], state)

/-- The inputs one polling cycle feeds to the notification pass. -/
structure CycleInput where
  cur : Int
  now : Int
  traders : List Trader
  invasions : List Invasion
  fissures : List Fissure
  weather : List Weather
deriving DecidableEq

/-- `run_once` (headless runner), notification and purge part:
`do_discord_notifications(...)` then `purge_old(state)`. -/
def runCycle (c : CycleInput) (s : Ledger) : Acc :=
  let r := do_discord_notifications c.cur c.now c.traders c.invasions c.fissures c.weather s
  (r.1, purge_old c.now r.2)

/-- Any number of consecutive cycles sharing one ledger. -/
def runCycles : List CycleInput → Ledger → Acc
  | [], s => ([], s)
  | c :: cs, s =>
    let r := runCycle c s
    let rest := runCycles cs r.2
    (r.1 ++ rest.1, rest.2)

/-- Does notification `n` belong to a non-batch category (trader
pre-announcement, trader arrival, contest) and carry ledger key `k`? -/
def notifKey (k : String) (n : Notification) : Bool :=
  match n with
  | Notification.traderPre t => vtPreKey t.oid == k
  | Notification.traderArrive t => vtArriveKey t.oid == k
  | Notification.invasion inv => inv.oid == k
  | _ => false

/-- Number of delivered non-batch notifications bearing ledger key `k`. -/
def countKey (k : String) (ns : List Notification) : Nat :=
  (ns.filter (notifKey k)).length

/-- `keyKept k cycles s`: along this run, whenever key `k` is present after
a cycle's notification pass, that cycle's purge keeps it ("the key is not
purged"). -/
def keyKept (k : String) : List CycleInput → Ledger → Bool
  | [], _ => true
  | c :: cs, s =>
    let r := do_discord_notifications c.cur c.now c.traders c.invasions c.fissures c.weather s
    let s' := purge_old c.now r.2
    (!(hasKey r.2 k) || hasKey s' k) && keyKept k cs s'

/-! ### At-most-once machinery for the non-batch categories -/

/-- Invariant of every stage of the notification pass, for a fixed key `k`:
the stage never removes `k` from the ledger, and either it delivers no new
`k`-keyed non-batch notification, or it delivers exactly one, does so only
when `k` was absent, and records `k` afterwards. -/
def StepOK (k : String) (f : Acc → Acc) : Prop :=
  ∀ acc : Acc,
    (hasKey acc.2 k = true → hasKey (f acc).2 k = true) ∧
    (countKey k (f acc).1 = countKey k acc.1 ∨
      (hasKey acc.2 k = false ∧
        countKey k (f acc).1 = countKey k acc.1 + 1 ∧
        hasKey (f acc).2 k = true))

theorem countKey_append (k : String) (a b : List Notification) :
    countKey k (a ++ b) = countKey k a + countKey k b := by
  simp [countKey, List.filter_append]

theorem countKey_snoc (k : String) (ns : List Notification) (n : Notification) :
    countKey k (ns ++ [n]) = countKey k ns + (if notifKey k n = true then 1 else 0) := by
  rw [countKey_append]
  cases h : notifKey k n <;> simp [countKey, List.filter, h]

theorem stepOK_comp {k : String} {f g : Acc → Acc}
    (hf : StepOK k f) (hg : StepOK k g) : StepOK k (fun acc => g (f acc)) := by
  intro acc
  obtain ⟨mf, cf⟩ := hf acc
  obtain ⟨mg, cg⟩ := hg (f acc)
  refine ⟨fun h => mg (mf h), ?_⟩
  rcases cf with hc | ⟨hk0, hc, hk1⟩
  · rcases cg with hc' | ⟨hk0', hc', hk1'⟩
    · exact Or.inl (hc'.trans hc)
    · refine Or.inr ⟨?_, by rw [hc', hc], hk1'⟩
      cases hA : hasKey acc.2 k
      · rfl
      · exact absurd (mf hA) (by simp [hk0'])
  · rcases cg with hc' | ⟨hk0', hc', hk1'⟩
    · exact Or.inr ⟨hk0, hc'.trans hc, mg hk1⟩
    · exact absurd hk1 (by simp [hk0'])

theorem stepOK_foldl {k : String} {α : Type} (f : Acc → α → Acc)
    (hf : ∀ x, StepOK k (fun acc => f acc x)) :
    ∀ xs : List α, StepOK k (fun acc => xs.foldl f acc) := by
  intro xs
  induction xs with
  | nil => exact fun acc => ⟨fun h => h, Or.inl rfl⟩
  | cons x xs ih => exact fun acc => stepOK_comp (hf x) ih acc

/-- The common "guarded post and record" shape shared by the trader
pre/arrival blocks and the invasion block. -/
theorem stepOK_guard (k K : String) (n : Notification) (now : Int) (cond : Bool)
    (hn : notifKey k n = (K == k)) :
    StepOK k (fun acc =>
      if cond && !(hasKey acc.2 K) then (acc.1 ++ [n], putTs acc.2 K now) else acc) := by
  intro acc
  cases hb : (cond && !(hasKey acc.2 K)) with
  | false =>
    refine ⟨?_, Or.inl ?_⟩ <;> simp [hb]
  | true =>
    rw [Bool.and_eq_true, Bool.not_eq_true'] at hb
    simp only [hb.1, hb.2, Bool.not_false, Bool.and_self, if_true]
    constructor
    · exact fun h => hasKey_putTs_mono _ _ _ _ h
    · by_cases hK : K = k
      · subst hK
        refine Or.inr ⟨hb.2, ?_, hasKey_putTs_self _ _ _⟩
        rw [countKey_snoc, hn]
        simp
      · refine Or.inl ?_
        rw [countKey_snoc, hn]
        simp [hK]

theorem stepOK_traderPrePart (k : String) (cur now : Int) (t : Trader) :
    StepOK k (traderPrePart cur now t) := by
  intro acc
  exact stepOK_guard k (vtPreKey t.oid) (Notification.traderPre t) now
    (preWindow cur t.act_ms) rfl acc

theorem stepOK_traderArrPart (k : String) (cur now : Int) (t : Trader) :
    StepOK k (traderArrPart cur now t) := by
  intro acc
  exact stepOK_guard k (vtArriveKey t.oid) (Notification.traderArrive t) now
    (decide (cur ≥ t.act_ms)) rfl acc

theorem stepOK_traderStep (k : String) (cur now : Int) (t : Trader) :
    StepOK k (fun acc => traderStep cur now acc t) := by
  intro acc
  exact stepOK_comp (stepOK_traderPrePart k cur now t) (stepOK_traderArrPart k cur now t) acc

theorem stepOK_invasionStep (k : String) (now : Int) (inv : Invasion) :
    StepOK k (fun acc => invasionStep now acc inv) := by
  intro acc
  exact stepOK_guard k inv.oid (Notification.invasion inv) now (!(inv.oid == "")) rfl acc

theorem stepOK_fissurePost (k : String) (now : Int) (fs : Fissure) :
    StepOK k (fun acc => fissurePost now acc fs) := by
  intro acc
  unfold fissurePost
  cases hb : (!(fs.oid == "")) with
  | false =>
    simp only [hb, Bool.false_eq_true, if_false]
    refine ⟨fun h => h, Or.inl ?_⟩
    rw [countKey_snoc]
    simp [notifKey]
  | true =>
    simp only [hb, if_true]
    refine ⟨fun h => hasKey_putTs_mono _ _ _ _ h, Or.inl ?_⟩
    rw [countKey_snoc]
    simp [notifKey]

theorem stepOK_fissuresStep (k : String) (now : Int) (fissures : List Fissure) :
    StepOK k (fissuresStep now fissures) := by
  intro acc
  unfold fissuresStep
  by_cases hb :
      (fissures.filter fun fs => !(fs.oid == "") && !(hasKey acc.2 fs.oid)).isEmpty = true
  · refine ⟨?_, Or.inl ?_⟩ <;> simp [hb]
  · simp only [hb, if_false]
    exact stepOK_foldl (fissurePost now) (fun fs => stepOK_fissurePost k now fs) fissures acc

theorem stepOK_weatherStep (k : String) (now : Int) (w : Weather) :
    StepOK k (fun acc => weatherStep now acc w) := by
  intro acc
  simp only [weatherStep]
  by_cases hb : hasKey acc.2 (weatherKey w) = true
  · refine ⟨?_, Or.inl ?_⟩ <;> simp [hb]
  · rw [if_neg hb]
    refine ⟨fun h => hasKey_putTs_mono _ _ _ _ h, Or.inl ?_⟩
    rw [countKey_snoc]
    simp [notifKey]

theorem stepOK_notifyStage (k : String) (cur now : Int) (traders : List Trader)
    (invasions : List Invasion) (fissures : List Fissure) (weather : List Weather) :
    StepOK k (notifyStage cur now traders invasions fissures weather) := by
  have h1 := stepOK_foldl (traderStep cur now) (fun t => stepOK_traderStep k cur now t) traders
  have h2 := stepOK_foldl (invasionStep now) (fun i => stepOK_invasionStep k now i) invasions
  have h3 := stepOK_fissuresStep k now fissures
  have h4 := stepOK_foldl (weatherStep now) (fun w => stepOK_weatherStep k now w)
    (weather.filter fun w => w.planet == "地球")
  intro acc
  exact stepOK_comp (stepOK_comp (stepOK_comp h1 h2) h3) h4 acc

/-- Abbreviation for the notification pass a cycle performs. -/
def notifyOf (c : CycleInput) (s : Ledger) : Acc :=
  do_discord_notifications c.cur c.now c.traders c.invasions c.fissures c.weather s

theorem do_has_mono (k : String) (c : CycleInput) (s : Ledger)
    (h : hasKey s k = true) : hasKey (notifyOf c s).2 k = true :=
  (stepOK_notifyStage k c.cur c.now c.traders c.invasions c.fissures c.weather ([], s)).1 h

theorem do_count_zero (k : String) (c : CycleInput) (s : Ledger)
    (h : hasKey s k = true) : countKey k (notifyOf c s).1 = 0 := by
  rcases (stepOK_notifyStage k c.cur c.now c.traders c.invasions c.fissures
      c.weather ([], s)).2 with hc | ⟨hk0, _, _⟩
  · exact hc
  · exact absurd h (by simp [hk0])

theorem do_count_le (k : String) (c : CycleInput) (s : Ledger) :
    countKey k (notifyOf c s).1 ≤ 1 := by
  have hdef : notifyOf c s =
      notifyStage c.cur c.now c.traders c.invasions c.fissures c.weather ([], s) := rfl
  rcases (stepOK_notifyStage k c.cur c.now c.traders c.invasions c.fissures
      c.weather ([], s)).2 with hc | ⟨_, hc, _⟩ <;> rw [hdef, hc] <;> simp [countKey]

theorem do_count_one_has (k : String) (c : CycleInput) (s : Ledger)
    (h : countKey k (notifyOf c s).1 = 1) : hasKey (notifyOf c s).2 k = true := by
  have hdef : notifyOf c s =
      notifyStage c.cur c.now c.traders c.invasions c.fissures c.weather ([], s) := rfl
  rcases (stepOK_notifyStage k c.cur c.now c.traders c.invasions c.fissures
      c.weather ([], s)).2 with hc | ⟨_, _, hk⟩
  · rw [hdef, hc] at h
    exact absurd h (by simp [countKey])
  · rw [hdef]
    exact hk

theorem keyKept_cons (k : String) (c : CycleInput) (cs : List CycleInput) (s : Ledger)
    (h : keyKept k (c :: cs) s = true) :
    ((!(hasKey (notifyOf c s).2 k) || hasKey (purge_old c.now (notifyOf c s).2) k) = true)
      ∧ keyKept k cs (purge_old c.now (notifyOf c s).2) = true := by
  rw [keyKept, Bool.and_eq_true] at h
  exact h

theorem runCycles_cons (cs : List CycleInput) (c : CycleInput) (s : Ledger) :
    runCycles (c :: cs) s =
      ((notifyOf c s).1 ++ (runCycles cs (purge_old c.now (notifyOf c s).2)).1,
        (runCycles cs (purge_old c.now (notifyOf c s).2)).2) := rfl

theorem runCycles_of_has (k : String) :
    ∀ (cs : List CycleInput) (s : Ledger), hasKey s k = true → keyKept k cs s = true →
      countKey k (runCycles cs s).1 = 0 ∧ hasKey (runCycles cs s).2 k = true := by
  intro cs
  induction cs with
  | nil => exact fun s h _ => ⟨rfl, h⟩
  | cons c cs ih =>
    intro s h hkept
    obtain ⟨hh, htl⟩ := keyKept_cons k c cs s hkept
    have h1 : hasKey (notifyOf c s).2 k = true := do_has_mono k c s h
    have h2 : hasKey (purge_old c.now (notifyOf c s).2) k = true := by
      rw [h1] at hh
      simpa using hh
    obtain ⟨hz, hf⟩ := ih (purge_old c.now (notifyOf c s).2) h2 htl
    rw [runCycles_cons, countKey_append, do_count_zero k c s h, hz]
    exact ⟨rfl, hf⟩

theorem runCycles_le_one (k : String) :
    ∀ (cs : List CycleInput) (s : Ledger), keyKept k cs s = true →
      countKey k (runCycles cs s).1 ≤ 1 := by
  intro cs
  induction cs with
  | nil => intro s _; simp [runCycles, countKey]
  | cons c cs ih =>
    intro s hkept
    obtain ⟨hh, htl⟩ := keyKept_cons k c cs s hkept
    rw [runCycles_cons, countKey_append]
    have hle := do_count_le k c s
    rcases Nat.le_one_iff_eq_zero_or_eq_one.mp hle with hcnt | hcnt
    · rw [hcnt]
      simpa using ih (purge_old c.now (notifyOf c s).2) htl
    · have h1 : hasKey (notifyOf c s).2 k = true := do_count_one_has k c s hcnt
      have h2 : hasKey (purge_old c.now (notifyOf c s).2) k = true := by
        rw [h1] at hh
        simpa using hh
      have hz := (runCycles_of_has k cs (purge_old c.now (notifyOf c s).2) h2 htl).1
      rw [hz, hcnt]

/-! ### Purge characterization helpers -/

theorem getTs_eq_none_of_not_mem (s : Ledger) (k : String)
    (h : k ∉ s.map Prod.fst) : getTs s k = none := by
  induction s with
  | nil => rfl
  | cons hd tl ih =>
    obtain ⟨k', v⟩ := hd
    rw [List.map_cons, List.mem_cons] at h
    push_neg at h
    rw [getTs, if_neg (fun hh => h.1 hh.symm)]
    exact ih h.2

theorem getTs_purge_iff (now : Int) (s : Ledger) (hwf : LedgerWF s) (k : String) (t : Int) :
    getTs (purge_old now s) k = some t ↔
      getTs s k = some t ∧ ¬(t < now - 3 * 86400) := by
  induction s with
  | nil => simp [purge_old, getTs]
  | cons hd tl ih =>
    obtain ⟨k', v⟩ := hd
    rw [LedgerWF, List.map_cons, List.nodup_cons] at hwf
    have hrec := ih hwf.2
    rw [purge_old, List.filter_cons]
    by_cases hv : v < now - 3 * 86400
    · rw [if_neg (by simp; omega)]
      rw [show List.filter (fun p => !(decide (p.2 < now - 3 * 86400))) tl
          = purge_old now tl from rfl, hrec]
      by_cases hk : k' = k
      · subst hk
        rw [getTs_eq_none_of_not_mem tl k' hwf.1]
        simp only [getTs, if_pos rfl]
        constructor
        · rintro ⟨h, -⟩
          exact absurd h (by simp)
        · rintro ⟨h, hcut⟩
          injection h with h
          exact absurd (h ▸ hv) hcut
      · simp only [getTs, if_neg hk]
    · rw [if_pos (by simp; omega)]
      by_cases hk : k' = k
      · subst hk
        simp only [getTs, if_pos rfl]
        constructor
        · intro h
          refine ⟨h, ?_⟩
          injection h with h
          rw [← h]
          exact hv
        · exact fun h => h.1
      · simp only [getTs, if_neg hk]
        exact hrec

/-! ### Claim C1 -/

/-- **C1**: for every identity key in a non-batch category (trader
pre-announcement, trader arrival, contest), at most one notification is
ever delivered for that key across any number of cycles sharing one
ledger, provided no purge drops the key; and once the key is in the
ledger, no further notification for it is delivered at all. -/
theorem c1_nonbatch_at_most_once (k : String) (cycles : List CycleInput) (s₀ : Ledger)
    (hkept : keyKept k cycles s₀ = true) :
    countKey k (runCycles cycles s₀).1 ≤ 1 ∧
    (hasKey s₀ k = true → countKey k (runCycles cycles s₀).1 = 0) :=
  ⟨runCycles_le_one k cycles s₀ hkept,
   fun h => (runCycles_of_has k cycles s₀ h hkept).1⟩

/-- Concrete rare-invasion record for the C1 witness. -/
def c1inv : Invasion :=
  { node := "Node", atk := "", def_ := "", atk_r := "", def_r := "",
    progress := 0, oid := "A" }

/-- Concrete cycle input for the C1 witness: the same contest candidate
appears in two consecutive cycles. -/
def c1cycle : CycleInput :=
  { cur := 0, now := 0, traders := [], invasions := [c1inv], fissures := [], weather := [] }

theorem c1_witness :
    countKey "A" (runCycles [c1cycle, c1cycle] []).1 ≤ 1 ∧
    countKey "A" (runCycles [c1cycle, c1cycle] []).1 = 1 :=
  ⟨(c1_nonbatch_at_most_once "A" [c1cycle, c1cycle] [] (by decide)).1, by decide⟩

/-! ### Claim C2 -/

/-- **C2** (refuting evaluation): `post_discord`'s 429 handler sleeps the
server-suggested duration (default 5 s) and retries, but the retry is an
unbounded recursive call, so a second 429 leads to a **third** attempt
instead of dropping the message: on responses 429(2 s), 429(2 s), 200 the
code makes 3 attempts with two 2 s sleeps, and a single 429 without a body
value sleeps the default 5 s. -/
theorem c2_recursive_retry_runaway :
    (post_discord_run [DiscordResponse.rateLimited (some 2),
        DiscordResponse.rateLimited (some 2), DiscordResponse.success]).1 = 3 ∧
    (post_discord_run [DiscordResponse.rateLimited (some 2),
        DiscordResponse.rateLimited (some 2), DiscordResponse.success]).2 = [2, 2] ∧
    (post_discord_run [DiscordResponse.rateLimited Option.none,
        DiscordResponse.success]).1 = 2 ∧
    (post_discord_run [DiscordResponse.rateLimited Option.none,
        DiscordResponse.success]).2 = [5] := by
  decide

/-! ### Claim C4 -/

/-- **C4**: the purge pass removes exactly the ledger entries whose stored
timestamp is older than 3 days (259200 s) before the current time,
regardless of key shape, and leaves every younger entry unchanged; in
particular a 4-day-old entry is dropped while a 1-day-old entry survives. -/
theorem c4_purge_exactly_by_age :
    (∀ (now : Int) (s : Ledger) (k : String) (t : Int), LedgerWF s →
        (getTs (purge_old now s) k = some t ↔
          getTs s k = some t ∧ ¬(t < now - 3 * 86400))) ∧
    (∀ now : Int,
        purge_old now [("vt_pre_a", now - 4 * 86400), ("inv_b", now - 86400)] =
          [("inv_b", now - 86400)]) := by
  constructor
  · intro now s k t hwf
    exact getTs_purge_iff now s hwf k t
  · intro now
    have h1 : (!(decide ((now - 4 * 86400 : Int) < now - 3 * 86400))) = false := by
      simp only [Bool.not_eq_false', decide_eq_true_eq]
      omega
    have h2 : (!(decide ((now - 86400 : Int) < now - 3 * 86400))) = true := by
      simp only [Bool.not_eq_true', decide_eq_false_iff_not]
      omega
    simp [purge_old, List.filter_cons, h1, h2]

theorem c4_witness :
    getTs (purge_old 20 [("k1", 10)]) "k1" = some 10 ↔
      getTs [("k1", 10)] "k1" = some 10 ∧ ¬((10 : Int) < 20 - 3 * 86400) :=
  c4_purge_exactly_by_age.1 20 [("k1", 10)] "k1" 10 (by unfold LedgerWF; decide)

/-! ### Claim C5 -/

/-- **C5**: a reward is classified rare iff some entry of its item list has
a name/type string containing one of the fixed keywords as a (case
sensitive) substring; a reward whose item list is empty is never rare. -/
theorem c5_rarity_iff :
    (∀ r : RawReward, _reward_is_rare (some r) = true ↔
        ∃ it ∈ rewardItems r, ∃ kw ∈ RARE_REWARD_TYPES,
          ∃ p q : List Char, (itemName it).toList = p ++ kw.toList ++ q) ∧
    (∀ r : RawReward, rewardItems r = [] → _reward_is_rare (some r) = false) := by
  constructor
  · intro r
    show ((rewardItems r).any fun it =>
      RARE_REWARD_TYPES.any fun kw => strIn kw (itemName it)) = true ↔ _
    simp only [List.any_eq_true, strIn_iff]
  · intro r h
    show ((rewardItems r).any fun it =>
      RARE_REWARD_TYPES.any fun kw => strIn kw (itemName it)) = false
    rw [h]
    rfl

/-- Reward carrying a Riven item, for the C5 witness. -/
def c5riven : RawReward :=
  { asString := Option.none,
    items := some [{ uniqueName := Option.none, type := some "RivenMod", count := Option.none }],
    countedItems := Option.none }

theorem c5_witness :
    _reward_is_rare (some emptyReward) = false ∧ _reward_is_rare (some c5riven) = true :=
  ⟨c5_rarity_iff.2 emptyReward rfl, by decide⟩

/-! ### Claim C7 -/

/-- **C7**: each category normalizer returns the empty record set when the
fetch step yielded no document (`None`). -/
theorem c7_normalizers_empty_on_fetch_failure (cur : Int) :
    fetch_traders cur TradersDoc.fetchFail = [] ∧
    fetch_invasions InvasionsDoc.fetchFail = [] ∧
    fetch_fissures cur FissuresDoc.fetchFail = [] :=
  ⟨rfl, rfl, rfl⟩

/-! ### Claim C8 -/

/-- **C8**: every contest record's progress ratio is
`abs(count) / max(goal, 1) * 100`, with the clamped denominator strictly
positive, so no division by zero can occur. -/
theorem c8_progress_ratio (xs : List RawInvasion) (r : Invasion)
    (h : r ∈ fetch_invasions (InvasionsDoc.list xs)) :
    ∃ raw ∈ xs,
      r.progress = ((|raw.count| : Int) : ℚ) / ((max raw.goal 1 : Int) : ℚ) * 100 ∧
      (0 : ℚ) < ((max raw.goal 1 : Int) : ℚ) := by
  simp only [fetch_invasions] at h
  rw [List.mem_filterMap] at h
  obtain ⟨raw, hraw, hsome⟩ := h
  have hpos : (0 : ℚ) < ((max raw.goal 1 : Int) : ℚ) := by
    exact_mod_cast lt_of_lt_of_le Int.zero_lt_one (le_max_right raw.goal 1)
  refine ⟨raw, hraw, ?_, hpos⟩
  by_cases h1 : raw.completed = true
  · rw [if_pos h1] at hsome
    exact absurd hsome (by simp)
  · rw [if_neg h1] at hsome
    by_cases h2 : (!(_reward_is_rare raw.attacker_reward) &&
        !(_reward_is_rare raw.defender_reward)) = true
    · rw [if_pos h2] at hsome
      exact absurd hsome (by simp)
    · rw [if_neg h2] at hsome
      have hr := Option.some.inj hsome
      rw [← hr]

/-- Concrete rare reward for the C8 witness. -/
def c8reward : RawReward :=
  { asString := some "Riven",
    items := some [{ uniqueName := Option.none, type := some "Riven", count := Option.none }],
    countedItems := Option.none }

/-- Raw invasion with `count = -7`, `goal = 0`, for the C8 witness. -/
def c8raw : RawInvasion :=
  { id := "inv1", node := Option.none, attackingFaction := "", defendingFaction := "",
    attacker_reward := some c8reward, defender_reward := some emptyReward,
    completed := false, count := -7, goal := 0 }

/-- The record `fetch_invasions` produces from `c8raw` (progress 700 %). -/
def c8inv : Invasion :=
  { node := "未知", atk := "", def_ := "", atk_r := "Riven", def_r := "无",
    progress := ((|(-7 : Int)| : Int) : ℚ) / ((max (0 : Int) 1 : Int) : ℚ) * 100,
    oid := "inv1" }

theorem c8_witness :
    (∃ raw ∈ [c8raw],
      c8inv.progress = ((|raw.count| : Int) : ℚ) / ((max raw.goal 1 : Int) : ℚ) * 100 ∧
      (0 : ℚ) < ((max raw.goal 1 : Int) : ℚ)) ∧
    c8inv.progress = 700 := by
  constructor
  · refine c8_progress_ratio [c8raw] c8inv ?_
    rw [show fetch_invasions (InvasionsDoc.list [c8raw]) = [c8inv] from rfl]
    exact List.mem_singleton_self _
  · show ((|(-7 : Int)| : Int) : ℚ) / ((max (0 : Int) 1 : Int) : ℚ) * 100 = 700
    rw [show |(-7 : Int)| = 7 from by decide, show max (0 : Int) 1 = 1 from by decide]
    norm_num

/-! ### Fissure-block helpers -/

theorem fissurePost_fst (now : Int) (acc : Acc) (fs : Fissure) :
    (fissurePost now acc fs).1 = acc.1 ++ [Notification.fissure fs] := by
  unfold fissurePost
  split <;> rfl

theorem fissFold_fst (now : Int) (xs : List Fissure) :
    ∀ acc : Acc, (xs.foldl (fissurePost now) acc).1 = acc.1 ++ xs.map Notification.fissure := by
  induction xs with
  | nil => intro acc; simp
  | cons x xs ih =>
    intro acc
    rw [List.foldl_cons, ih, fissurePost_fst, List.map_cons]
    simp

theorem fissurePost_getTs_keep (now : Int) (acc : Acc) (fs : Fissure) (o : String)
    (h : getTs acc.2 o = some now) : getTs (fissurePost now acc fs).2 o = some now := by
  unfold fissurePost
  split
  · rw [getTs_putTs]
    split <;> [rfl; exact h]
  · exact h

theorem fissFold_getTs_keep (now : Int) (xs : List Fissure) :
    ∀ (acc : Acc) (o : String), getTs acc.2 o = some now →
      getTs ((xs.foldl (fissurePost now) acc)).2 o = some now := by
  induction xs with
  | nil => exact fun acc o h => h
  | cons x xs ih =>
    intro acc o h
    rw [List.foldl_cons]
    exact ih _ o (fissurePost_getTs_keep now acc x o h)

theorem fissFold_getTs_set (now : Int) (xs : List Fissure) :
    ∀ (acc : Acc) (fs : Fissure), fs ∈ xs → fs.oid ≠ "" →
      getTs ((xs.foldl (fissurePost now) acc)).2 fs.oid = some now := by
  induction xs with
  | nil => intro acc fs h; exact absurd h (List.not_mem_nil fs)
  | cons x xs ih =>
    intro acc fs hmem hne
    rw [List.foldl_cons]
    rcases List.mem_cons.mp hmem with rfl | hmem'
    · refine fissFold_getTs_keep now xs _ fs.oid ?_
      unfold fissurePost
      rw [if_pos (by simp [hne])]
      rw [getTs_putTs, if_pos rfl]
    · exact ih _ fs hmem' hne

/-- The batch trigger: some currently-active fissure has a non-empty id
that is not yet in the ledger (`new_fissures` is non-empty). -/
def riftTriggered (w : List Fissure) (s : Ledger) : Bool :=
  w.any fun fs => !(fs.oid == "") && !(hasKey s fs.oid)

theorem riftTriggered_iff_filter (w : List Fissure) (s : Ledger) :
    riftTriggered w s = true ↔
      (w.filter fun fs => !(fs.oid == "") && !(hasKey s fs.oid)).isEmpty = false := by
  rw [riftTriggered, List.any_eq_true]
  constructor
  · rintro ⟨fs, hm, hp⟩
    have hmem : fs ∈ w.filter fun fs => !(fs.oid == "") && !(hasKey s fs.oid) :=
      List.mem_filter.mpr ⟨hm, hp⟩
    cases he : (w.filter fun fs => !(fs.oid == "") && !(hasKey s fs.oid)).isEmpty
    · rfl
    · rw [List.isEmpty_iff] at he
      rw [he] at hmem
      exact absurd hmem (List.not_mem_nil fs)
  · intro he
    cases hf : w.filter fun fs => !(fs.oid == "") && !(hasKey s fs.oid) with
    | nil => rw [hf] at he; exact absurd he (by simp)
    | cons x xs =>
      have hx : x ∈ w.filter fun fs => !(fs.oid == "") && !(hasKey s fs.oid) := by
        rw [hf]; exact List.mem_cons_self x xs
      obtain ⟨hm, hp⟩ := List.mem_filter.mp hx
      exact ⟨x, hm, hp⟩

theorem fissuresStep_triggered (now : Int) (fissures : List Fissure) (acc : Acc)
    (h : riftTriggered fissures acc.2 = true) :
    fissuresStep now fissures acc = fissures.foldl (fissurePost now) acc := by
  unfold fissuresStep
  rw [if_neg (by rw [(riftTriggered_iff_filter fissures acc.2).mp h]; simp)]

theorem fissuresStep_not_triggered (now : Int) (fissures : List Fissure) (acc : Acc)
    (h : riftTriggered fissures acc.2 = false) :
    fissuresStep now fissures acc = acc := by
  unfold fissuresStep
  rw [if_pos ?_]
  cases he : (fissures.filter fun fs => !(fs.oid == "") && !(hasKey acc.2 fs.oid)).isEmpty
  · exact absurd ((riftTriggered_iff_filter fissures acc.2).mpr he) (by simp [h])
  · rfl

/-! ### Claim C3 -/

/-- Fissure with an empty upstream id, for the C3 counterexample. -/
def c3fiss : Fissure :=
  { node_label := "Mot (虚空)", tier := "T5", mtype := "生存", remain := "", expiry := "",
    oid := "" }

/-- **C3 counterexample**: the candidate `c3fiss` has identity `""`, which is
absent from the empty ledger, yet the fissure block delivers nothing — so
"if at least one candidate's identity is absent from the ledger, a
notification is delivered for every rift in the set" fails as stated. -/
theorem c3_counterexample :
    hasKey ([] : Ledger) c3fiss.oid = false ∧
    (fissuresStep 0 [c3fiss] ([], ([] : Ledger))).1 = [] := by decide

/-- **C3 (amended)**: if at least one candidate with a **non-empty**
identity is absent from the ledger, a notification is delivered for every
rift in the set (including ones already present) and every non-empty
identity in the set is marked afterward; if no candidate with a non-empty
identity is new, no rift notification is sent that cycle. -/
theorem c3_rift_batch_amended (now : Int) (fissures : List Fissure) (s : Ledger) :
    ((∃ fs ∈ fissures, fs.oid ≠ "" ∧ hasKey s fs.oid = false) →
        (fissuresStep now fissures ([], s)).1 = fissures.map Notification.fissure ∧
        ∀ fs ∈ fissures, fs.oid ≠ "" →
          hasKey (fissuresStep now fissures ([], s)).2 fs.oid = true) ∧
    ((∀ fs ∈ fissures, fs.oid = "" ∨ hasKey s fs.oid = true) →
        (fissuresStep now fissures ([], s)).1 = []) := by
  constructor
  · rintro ⟨fs, hm, hne, hkey⟩
    have htrig : riftTriggered fissures s = true := by
      rw [riftTriggered, List.any_eq_true]
      exact ⟨fs, hm, by simp [hne, hkey, hasKey] at hkey ⊢; simp [hne, hkey]⟩
    have hstep := fissuresStep_triggered now fissures ([], s) htrig
    constructor
    · rw [hstep, fissFold_fst]
      simp
    · intro fs' hm' hne'
      rw [hstep, hasKey, fissFold_getTs_set now fissures ([], s) fs' hm' hne']
      rfl
  · intro h
    have htrig : riftTriggered fissures s = false := by
      cases ht : riftTriggered fissures s
      · rfl
      · rw [riftTriggered, List.any_eq_true] at ht
        obtain ⟨fs, hm, hp⟩ := ht
        rw [Bool.and_eq_true, Bool.not_eq_true', Bool.not_eq_true'] at hp
        rcases h fs hm with ho | hk
        · rw [ho] at hp
          exact absurd hp.1 (by simp)
        · rw [hk] at hp
          exact absurd hp.2 (by simp)
    rw [fissuresStep_not_triggered now fissures ([], s) htrig]

/-- Three concrete fissures for the C3 witness (the spec's own scenario:
two of three identities already in the ledger, a third is new). -/
def c3fa : Fissure :=
  { node_label := "Mot (虚空)", tier := "T5", mtype := "", remain := "", expiry := "", oid := "a" }

def c3fb : Fissure :=
  { node_label := "Ani (虚空)", tier := "T4", mtype := "", remain := "", expiry := "", oid := "b" }

def c3fc : Fissure :=
  { node_label := "Kappa (冥神星)", tier := "T3", mtype := "", remain := "", expiry := "", oid := "c" }

theorem c3_witness :
    (fissuresStep 100 [c3fa, c3fb, c3fc] ([], [("a", 0), ("b", 0)])).1 =
      [c3fa, c3fb, c3fc].map Notification.fissure ∧
    hasKey (fissuresStep 100 [c3fa, c3fb, c3fc] ([], [("a", 0), ("b", 0)])).2 c3fa.oid = true ∧
    hasKey (fissuresStep 100 [c3fa, c3fb, c3fc] ([], [("a", 0), ("b", 0)])).2 c3fc.oid = true := by
  have h := (c3_rift_batch_amended 100 [c3fa, c3fb, c3fc] [("a", 0), ("b", 0)]).1 (by decide)
  exact ⟨h.1, h.2 c3fa (by decide) (by decide), h.2 c3fc (by decide) (by decide)⟩

/-! ### Claim C9 -/

/-- One rift-and-purge cycle, restricted to the fissure block followed by
the purge pass, at current time `t`. -/
def riftCycle (t : Int) (w : List Fissure) (s : Ledger) : Ledger :=
  purge_old t (fissuresStep t w ([], s)).2

/-- `riftRunOK id cs s`: along this run, every cycle's wave fires the
batch (some non-empty identity is new) and contains a fissure with
identity `id`. -/
def riftRunOK (id : String) : List (Int × List Fissure) → Ledger → Bool
  | [], _ => true
  | (t, w) :: rest, s =>
    riftTriggered w s && (w.any fun fs => fs.oid == id) && riftRunOK id rest (riftCycle t w s)

/-- Final ledger after a run of rift-and-purge cycles. -/
def riftRunState : List (Int × List Fissure) → Ledger → Ledger
  | [], s => s
  | (t, w) :: rest, s => riftRunState rest (riftCycle t w s)

theorem rift_overwrite (now : Int) (w : List Fissure) (s : Ledger) (fs : Fissure)
    (htrig : riftTriggered w s = true) (hm : fs ∈ w) (hne : fs.oid ≠ "") :
    getTs (fissuresStep now w ([], s)).2 fs.oid = some now := by
  rw [fissuresStep_triggered now w ([], s) htrig]
  exact fissFold_getTs_set now w ([], s) fs hm hne

theorem rift_purge_keeps (t : Int) (s' : Ledger) (id : String)
    (h : getTs s' id = some t) : getTs (purge_old t s') id = some t := by
  refine getTs_filter_some s' _ id t h ?_
  simp only [Bool.not_eq_true', decide_eq_false_iff_not]
  omega

/-- **C9**: when the rift batch fires, the ledger timestamp of every
non-empty identity in the wave — including ones already present — is
overwritten with the current time; consequently a rift that appears in a
fired wave every cycle always survives that cycle's purge, and its stored
timestamp is the time of the most recent re-announcement. -/
theorem c9_rift_refresh_outruns_purge :
    (∀ (now : Int) (w : List Fissure) (s : Ledger) (fs : Fissure),
        riftTriggered w s = true → fs ∈ w → fs.oid ≠ "" →
        getTs (fissuresStep now w ([], s)).2 fs.oid = some now) ∧
    (∀ (id : String) (cs : List (Int × List Fissure)) (s : Ledger) (hne : cs ≠ []),
        id ≠ "" → riftRunOK id cs s = true →
        getTs (riftRunState cs s) id = some (cs.getLast hne).1) := by
  constructor
  · exact rift_overwrite
  · intro id cs
    induction cs with
    | nil => intro s hne; exact absurd rfl hne
    | cons hd tl ih =>
      obtain ⟨t, w⟩ := hd
      intro s hne hid hok
      rw [riftRunOK, Bool.and_eq_true, Bool.and_eq_true] at hok
      obtain ⟨⟨htrig, hany⟩, hrest⟩ := hok
      obtain ⟨fs, hm, hfs⟩ := List.any_eq_true.mp hany
      rw [beq_iff_eq] at hfs
      cases tl with
      | nil =>
        have hset : getTs (fissuresStep t w ([], s)).2 id = some t := by
          rw [← hfs]
          exact rift_overwrite t w s fs htrig hm (by rw [hfs]; exact hid)
        exact rift_purge_keeps t _ id hset
      | cons c' cs' =>
        have := ih (riftCycle t w s) (by simp) hid hrest
        rw [riftRunState, List.getLast_cons (by simp)]
        exact this

/-- Concrete fissures and cycle list for the C9 witness: `a` is announced at
time 0, then re-announced at time 600000 (well past the 3-day cutoff
relative to its first timestamp) because sibling `b` is new; `a` survives
the purge with its timestamp refreshed to 600000. -/
def c9fa : Fissure :=
  { node_label := "Mot (虚空)", tier := "T5", mtype := "", remain := "", expiry := "", oid := "a" }

def c9fb : Fissure :=
  { node_label := "Ani (虚空)", tier := "T4", mtype := "", remain := "", expiry := "", oid := "b" }

def c9cycles : List (Int × List Fissure) := [(0, [c9fa]), (600000, [c9fa, c9fb])]

theorem c9_witness :
    getTs (riftRunState c9cycles []) "a" = some 600000 ∧
    getTs (fissuresStep 600000 [c9fa, c9fb] ([], [("a", 0)])).2 c9fa.oid = some 600000 :=
  ⟨(c9_rift_refresh_outruns_purge.2 "a" c9cycles [] (by decide) (by decide) (by decide)),
   c9_rift_refresh_outruns_purge.1 600000 [c9fa, c9fb] [("a", 0)] c9fa
     (by decide) (by decide) (by decide)⟩

/-! ### Claim C6 -/

theorem hasKey_putTs_cases {s : Ledger} {K k : String} {now : Int}
    (h : hasKey (putTs s K now) k = true) : k = K ∨ hasKey s k = true := by
  by_cases hkK : k = K
  · exact Or.inl hkK
  · right
    rw [hasKey_putTs] at h
    have hb : (k == K) = false := beq_eq_false_iff_ne.mpr hkK
    rw [hb] at h
    simpa using h

/-- Weather record for the C6 counterexample. -/
def c6w : Weather :=
  { planet := "地球", state := "白天 ☀", next_state := "夜晚 🌙", remain := "1h 02m",
    expiry := "11-05 12:00" }

/-- **C6 counterexample**: delivering a weather notification records the key
`"weather_" + planet + "_" + state + "_" + expiry` (underscores), not the
claimed `"weather:" + domain + ":" + state + ":" + expiry` — the colon-form
key is absent from the updated ledger. -/
theorem c6_counterexample :
    (weatherStep 5 ([], []) c6w).1 = [Notification.weather c6w] ∧
    hasKey (weatherStep 5 ([], []) c6w).2
      ("weather:" ++ c6w.planet ++ ":" ++ c6w.state ++ ":" ++ c6w.expiry) = false ∧
    hasKey (weatherStep 5 ([], []) c6w).2 (weatherKey c6w) = true := by decide

/-- **C6 (amended)**: the ledger keys are built per category as
`"vt_pre_" + identity` (trader pre-announcement), `"vt_arrive_" + identity`
(trader arrival) and `"weather_" + planet + "_" + state + "_" + expiry`
(cycle/weather): these are exactly the key builders, and the only keys a
trader or weather step can add to the ledger. -/
theorem c6_key_shapes_amended (cur now : Int) (t : Trader) (w : Weather) (acc : Acc)
    (k : String) :
    (hasKey (traderStep cur now acc t).2 k = true →
        hasKey acc.2 k = true ∨ k = "vt_pre_" ++ t.oid ∨ k = "vt_arrive_" ++ t.oid) ∧
    (hasKey (weatherStep now acc w).2 k = true →
        hasKey acc.2 k = true ∨
          k = "weather_" ++ w.planet ++ "_" ++ w.state ++ "_" ++ w.expiry) ∧
    vtPreKey t.oid = "vt_pre_" ++ t.oid ∧
    vtArriveKey t.oid = "vt_arrive_" ++ t.oid ∧
    weatherKey w = "weather_" ++ w.planet ++ "_" ++ w.state ++ "_" ++ w.expiry := by
  have pre_cases : hasKey (traderPrePart cur now t acc).2 k = true →
      hasKey acc.2 k = true ∨ k = "vt_pre_" ++ t.oid := by
    intro hp
    unfold traderPrePart at hp
    by_cases h1 : (preWindow cur t.act_ms && !(hasKey acc.2 (vtPreKey t.oid))) = true
    · rw [if_pos h1] at hp
      rcases hasKey_putTs_cases hp with rfl | hp'
      · exact Or.inr rfl
      · exact Or.inl hp'
    · rw [if_neg h1] at hp
      exact Or.inl hp
  refine ⟨?_, ?_, rfl, rfl, rfl⟩
  · intro h
    unfold traderStep traderArrPart at h
    by_cases h2 : (decide (cur ≥ t.act_ms) &&
        !(hasKey (traderPrePart cur now t acc).2 (vtArriveKey t.oid))) = true
    · rw [if_pos h2] at h
      rcases hasKey_putTs_cases h with rfl | h'
      · exact Or.inr (Or.inr rfl)
      · rcases pre_cases h' with ha | rfl
        · exact Or.inl ha
        · exact Or.inr (Or.inl rfl)
    · rw [if_neg h2] at h
      rcases pre_cases h with ha | rfl
      · exact Or.inl ha
      · exact Or.inr (Or.inl rfl)
  · intro h
    simp only [weatherStep] at h
    by_cases hb : hasKey acc.2 (weatherKey w) = true
    · rw [if_pos hb] at h
      exact Or.inl h
    · rw [if_neg hb] at h
      rcases hasKey_putTs_cases h with rfl | h'
      · exact Or.inr rfl
      · exact Or.inl h'

/-- Trader record for the C6 witness (already arrived: `act_ms < cur`). -/
def c6trader : Trader :=
  { active := true, name := "Baro Ki'Teer", node := "", remain := "", arrive_remain := "",
    arrive_str := "", expiry_str := "", oid := "x", act_ms := -5, exp_ms := 0 }

theorem c6_witness :
    (hasKey ([] : Ledger) (vtArriveKey c6trader.oid) = true ∨
      vtArriveKey c6trader.oid = "vt_pre_" ++ c6trader.oid ∨
      vtArriveKey c6trader.oid = "vt_arrive_" ++ c6trader.oid) ∧
    (hasKey ([] : Ledger) (weatherKey c6w) = true ∨
      weatherKey c6w = "weather_" ++ c6w.planet ++ "_" ++ c6w.state ++ "_" ++ c6w.expiry) := by
  constructor
  · refine (c6_key_shapes_amended 0 5 c6trader c6w ([], []) (vtArriveKey c6trader.oid)).1 ?_
    have hpre : preWindow 0 c6trader.act_ms = false := by
      show preWindow 0 (-5) = false
      unfold preWindow
      have hA : ¬ ((0 : ℚ) < (((-5 : Int) - (0 : Int) : Int) : ℚ) / 1000) := by norm_num
      simp [hA]
    have h1 : traderPrePart 0 5 c6trader ([], ([] : Ledger)) = ([], []) := by
      unfold traderPrePart
      rw [hpre]
      rfl
    show hasKey (traderStep 0 5 ([], []) c6trader).2 (vtArriveKey c6trader.oid) = true
    unfold traderStep
    rw [h1]
    decide
  · exact (c6_key_shapes_amended 0 5 c6trader c6w ([], []) (weatherKey c6w)).2.1 (by decide)

/-! ### Claim C10 -/

theorem str_len_zero_iff (s : String) : s.length = 0 ↔ s = "" := by
  obtain ⟨d⟩ := s
  constructor
  · intro h
    have hd : d = [] := List.length_eq_zero.mp h
    rw [hd]
  · intro h
    rw [h]
    rfl

theorem append_ne_empty_of_left (a b : String) (ha : a ≠ "") : a ++ b ≠ "" := by
  intro h
  have hl := congrArg String.length h
  rw [String.length_append] at hl
  have h0 : ("" : String).length = 0 := rfl
  rw [h0] at hl
  have : a.length = 0 := by omega
  exact ha ((str_len_zero_iff a).mp this)

theorem vtPreKey_ne_empty (oid : String) : vtPreKey oid ≠ "" :=
  append_ne_empty_of_left _ _ (by decide)

theorem vtArriveKey_ne_empty (oid : String) : vtArriveKey oid ≠ "" :=
  append_ne_empty_of_left _ _ (by decide)

theorem weatherKey_ne_empty (w : Weather) : weatherKey w ≠ "" := by
  show "weather_" ++ w.planet ++ "_" ++ w.state ++ "_" ++ w.expiry ≠ ""
  refine append_ne_empty_of_left _ _ ?_
  refine append_ne_empty_of_left _ _ ?_
  refine append_ne_empty_of_left _ _ ?_
  refine append_ne_empty_of_left _ _ ?_
  refine append_ne_empty_of_left _ _ ?_
  decide

/-- Invariant for claim C10: the stage delivers no non-batch notification
keyed by the empty identity, and never creates a ledger entry under the
empty key. -/
def EmptySafe (f : Acc → Acc) : Prop :=
  ∀ acc : Acc,
    countKey "" (f acc).1 = countKey "" acc.1 ∧
    (hasKey acc.2 "" = false → hasKey (f acc).2 "" = false)

theorem emptySafe_comp {f g : Acc → Acc} (hf : EmptySafe f) (hg : EmptySafe g) :
    EmptySafe (fun acc => g (f acc)) :=
  fun acc => ⟨((hg (f acc)).1).trans (hf acc).1, fun h => (hg (f acc)).2 ((hf acc).2 h)⟩

theorem emptySafe_foldl {α : Type} (f : Acc → α → Acc)
    (hf : ∀ x, EmptySafe (fun acc => f acc x)) :
    ∀ xs : List α, EmptySafe (fun acc => xs.foldl f acc) := by
  intro xs
  induction xs with
  | nil => exact fun acc => ⟨rfl, fun h => h⟩
  | cons x xs ih => exact fun acc => emptySafe_comp (hf x) ih acc

theorem hasKey_putTs_empty_false (s : Ledger) (K : String) (now : Int)
    (hK : K ≠ "") (h : hasKey s "" = false) : hasKey (putTs s K now) "" = false := by
  rw [hasKey_putTs]
  have hb : ("" == K) = false := beq_eq_false_iff_ne.mpr (fun hh => hK hh.symm)
  rw [hb, h]
  rfl

theorem emptySafe_guard (K : String) (n : Notification) (now : Int) (cond : Bool)
    (hK : K ≠ "") (hn : notifKey "" n = false) :
    EmptySafe (fun acc =>
      if cond && !(hasKey acc.2 K) then (acc.1 ++ [n], putTs acc.2 K now) else acc) := by
  intro acc
  dsimp only
  by_cases hb : (cond && !(hasKey acc.2 K)) = true
  · refine ⟨?_, ?_⟩
    · rw [if_pos hb]
      show countKey "" (acc.1 ++ [n]) = countKey "" acc.1
      rw [countKey_snoc, hn]
      simp
    · intro h
      rw [if_pos hb]
      exact hasKey_putTs_empty_false acc.2 K now hK h
  · rw [if_neg hb]
    exact ⟨rfl, fun h => h⟩

theorem emptySafe_traderStep (cur now : Int) (t : Trader) :
    EmptySafe (fun acc => traderStep cur now acc t) := by
  have h1 : EmptySafe (traderPrePart cur now t) := by
    intro acc
    exact emptySafe_guard (vtPreKey t.oid) (Notification.traderPre t) now
      (preWindow cur t.act_ms) (vtPreKey_ne_empty t.oid)
      (beq_eq_false_iff_ne.mpr (vtPreKey_ne_empty t.oid)) acc
  have h2 : EmptySafe (traderArrPart cur now t) := by
    intro acc
    exact emptySafe_guard (vtArriveKey t.oid) (Notification.traderArrive t) now
      (decide (cur ≥ t.act_ms)) (vtArriveKey_ne_empty t.oid)
      (beq_eq_false_iff_ne.mpr (vtArriveKey_ne_empty t.oid)) acc
  exact fun acc => emptySafe_comp h1 h2 acc

theorem emptySafe_invasionStep (now : Int) (inv : Invasion) :
    EmptySafe (fun acc => invasionStep now acc inv) := by
  intro acc
  unfold invasionStep
  dsimp only
  by_cases hb : (!(inv.oid == "") && !(hasKey acc.2 inv.oid)) = true
  · have hne : inv.oid ≠ "" := by
      rw [Bool.and_eq_true] at hb
      have := hb.1
      simpa using this
    refine ⟨?_, ?_⟩
    · rw [if_pos hb]
      show countKey "" (acc.1 ++ [Notification.invasion inv]) = countKey "" acc.1
      rw [countKey_snoc]
      have hn : notifKey "" (Notification.invasion inv) = false := by
        simp [notifKey, hne]
      rw [hn]
      simp
    · intro h
      rw [if_pos hb]
      exact hasKey_putTs_empty_false acc.2 inv.oid now hne h
  · rw [if_neg hb]
    exact ⟨rfl, fun h => h⟩

theorem emptySafe_fissurePost (now : Int) (fs : Fissure) :
    EmptySafe (fun acc => fissurePost now acc fs) := by
  intro acc
  unfold fissurePost
  dsimp only
  have hcnt : countKey "" (acc.1 ++ [Notification.fissure fs]) = countKey "" acc.1 := by
    rw [countKey_snoc]
    simp [notifKey]
  by_cases hb : (!(fs.oid == "")) = true
  · have hne : fs.oid ≠ "" := by simpa using hb
    refine ⟨?_, ?_⟩
    · rw [if_pos hb]
      exact hcnt
    · intro h
      rw [if_pos hb]
      exact hasKey_putTs_empty_false acc.2 fs.oid now hne h
  · rw [if_neg hb]
    exact ⟨hcnt, fun h => h⟩

theorem emptySafe_fissuresStep (now : Int) (fissures : List Fissure) :
    EmptySafe (fissuresStep now fissures) := by
  intro acc
  unfold fissuresStep
  by_cases hb :
      (fissures.filter fun fs => !(fs.oid == "") && !(hasKey acc.2 fs.oid)).isEmpty = true
  · refine ⟨?_, ?_⟩ <;> simp [hb]
  · simp only [hb, if_false]
    exact emptySafe_foldl (fissurePost now) (fun fs => emptySafe_fissurePost now fs) fissures acc

theorem emptySafe_weatherStep (now : Int) (w : Weather) :
    EmptySafe (fun acc => weatherStep now acc w) := by
  intro acc
  simp only [weatherStep]
  by_cases hb : hasKey acc.2 (weatherKey w) = true
  · refine ⟨?_, ?_⟩ <;> simp [hb]
  · rw [if_neg hb]
    refine ⟨?_, ?_⟩
    · show countKey "" (acc.1 ++ [Notification.weather w]) = countKey "" acc.1
      rw [countKey_snoc]
      simp [notifKey]
    · intro h
      exact hasKey_putTs_empty_false acc.2 (weatherKey w) now (weatherKey_ne_empty w) h

theorem emptySafe_notifyStage (cur now : Int) (traders : List Trader)
    (invasions : List Invasion) (fissures : List Fissure) (weather : List Weather) :
    EmptySafe (notifyStage cur now traders invasions fissures weather) := by
  have h1 := emptySafe_foldl (traderStep cur now)
    (fun t => emptySafe_traderStep cur now t) traders
  have h2 := emptySafe_foldl (invasionStep now)
    (fun i => emptySafe_invasionStep now i) invasions
  have h3 := emptySafe_fissuresStep now fissures
  have h4 := emptySafe_foldl (weatherStep now) (fun w => emptySafe_weatherStep now w)
    (weather.filter fun w => w.planet == "地球")
  intro acc
  exact emptySafe_comp (emptySafe_comp (emptySafe_comp h1 h2) h3) h4 acc

/-- **C10**: a contest candidate whose upstream identity is empty (`""`)
never yields a delivered notification and never creates a ledger entry,
across any number of cycles — the empty key never enters the ledger at
all. -/
theorem c10_empty_identity_never_notified :
    ∀ (cycles : List CycleInput) (s₀ : Ledger),
      countKey "" (runCycles cycles s₀).1 = 0 ∧
      (hasKey s₀ "" = false → hasKey (runCycles cycles s₀).2 "" = false) := by
  intro cycles
  induction cycles with
  | nil => exact fun s₀ => ⟨rfl, fun h => h⟩
  | cons c cs ih =>
    intro s₀
    have hstage := emptySafe_notifyStage c.cur c.now c.traders c.invasions c.fissures
      c.weather ([], s₀)
    have hdef : notifyOf c s₀ =
        notifyStage c.cur c.now c.traders c.invasions c.fissures c.weather ([], s₀) := rfl
    constructor
    · rw [runCycles_cons, countKey_append, (ih _).1, hdef, hstage.1]
      rfl
    · intro h
      have h1 : hasKey (notifyOf c s₀).2 "" = false := by
        rw [hdef]
        exact hstage.2 h
      have h2 : hasKey (purge_old c.now (notifyOf c s₀).2) "" = false :=
        hasKey_purge_false c.now _ "" h1
      rw [runCycles_cons]
      exact (ih _).2 h2

/-- Rare, not-completed contest candidate with empty identity, for the C10
witness: present every cycle, never delivered, never keyed. -/
def c10inv : Invasion :=
  { node := "Pluto", atk := "星团", def_ := "基尼尔", atk_r := "Riven", def_r := "无",
    progress := 0, oid := "" }

def c10cycle : CycleInput :=
  { cur := 0, now := 0, traders := [], invasions := [c10inv], fissures := [], weather := [] }

theorem c10_witness :
    countKey "" (runCycles [c10cycle, c10cycle] []).1 = 0 ∧
    hasKey (runCycles [c10cycle, c10cycle] []).2 "" = false :=
  ⟨(c10_empty_identity_never_notified [c10cycle, c10cycle] []).1,
   (c10_empty_identity_never_notified [c10cycle, c10cycle] []).2 (by decide)⟩

end TennoReporter
